import Mathlib

/-!
Verification development for the gn-to-gyp translator.

Strings are modelled as lists of characters (`Str`).  Fallible code
(functions that `throw` in the implementation) is modelled with `Option`:
`none` is a thrown error, `some` a normal return.  JavaScript `Map`s are
modelled as association lists in insertion order, matching the iteration
order of `Map.prototype.keys()` / `values()`.
-/

namespace GnToGyp

/-- Character-list model of a JavaScript string. -/
abbrev Str := List Char

/-- Coercion from Lean string literals into the `Str` model. -/
def str (s : String) : Str := s.data

/-- Lookup in an insertion-ordered association list (JS `Map.get`). -/
def alookup {α : Type} : List (Str × α) → Str → Option α
  | [], _ => none
  | (k, v) :: rest, key => if k = key then some v else alookup rest key

/-- JS `Map.set`: replace the value in place if the key exists, keeping the
original insertion position, otherwise append the binding at the end. -/
def mapSet {α : Type} : List (Str × α) → Str → α → List (Str × α)
  | [], k, v => [(k, v)]
  | p :: ps, k, v => if p.1 = k then (k, v) :: ps else p :: mapSet ps k v

/-- JS `Set.add` on a value-equality set kept in insertion order:
append the element if it is not already present. -/
def insSet {α : Type} [DecidableEq α] (l : List α) (a : α) : List α :=
  if a ∈ l then l else l ++ [a]

/-- Model of `util.ts` `removeDuplicates` used as a `reduce` accumulator:
fold a list into its duplicate-free version, keeping first occurrences. -/
def dedupL {α : Type} [DecidableEq α] (l : List α) : List α :=
  l.foldl insSet []

/-- Model of `util.ts` `arrayEquals`: same length and element-wise equality. -/
def arrayEquals {α : Type} [DecidableEq α] (a b : List α) : Bool :=
  decide (a = b)

/-- Model of `util.ts` `getOnlyMappedValue`: map the list, remove duplicates,
and return the unique mapped value; error (`none`) unless exactly one value
remains. -/
def getOnlyMappedValue {α β : Type} [DecidableEq β] (l : List α) (f : α → β) : Option β :=
  match dedupL (l.map f) with
  | [b] => some b
  | _ => none

/-- Effectful map in the `Option` monad: an error on any element aborts the
whole traversal, as a thrown exception does inside `Array.prototype.map`. -/
def mapOpt {α β : Type} (f : α → Option β) : List α → Option (List β)
  | [] => some []
  | a :: as =>
    match f a, mapOpt f as with
    | some b, some bs => some (b :: bs)
    | _, _ => none

/-- Remainder of `s` after a leading occurrence of `pre`
(`s.startsWith(pre)` plus `s.slice(pre.length)`), or `none`. -/
def stripLead : Str → Str → Option Str
  | [], s => some s
  | _, [] => none
  | p :: ps, c :: cs => if p = c then stripLead ps cs else none

/-- Remainder of `s` before a trailing occurrence of `suf`
(`s.endsWith(suf)` plus `s.slice(0, s.length - suf.length)`), or `none`. -/
def stripTail (suf s : Str) : Option Str :=
  if suf.isSuffixOf s then some (s.take (s.length - suf.length)) else none

/-- Split a list at the LAST occurrence of `c`: returns `(before, after)`
with `l = before ++ c :: after` and no `c` in `after`. -/
def lastSplit (c : Char) : Str → Option (Str × Str)
  | [] => none
  | x :: xs =>
    match lastSplit c xs with
    | some (a, b) => some (x :: a, b)
    | none => if x = c then some ([], xs) else none

/-- Replace the first occurrence of a character (JS `String.replace` with a
string pattern replaces only the first match). -/
def replaceFirst (a b : Char) : Str → Str
  | [] => []
  | c :: cs => if c = a then b :: cs else c :: replaceFirst a b cs

/-- Components of a GN target name, as produced by `parseGnTargetName` in
`gn.ts`: the `toolchain` component is `none` when the optional
`(<toolchain>)` group did not participate in the regex match. -/
structure ParsedGnTargetName where
  path : Str
  target : Str
  toolchain : Option Str
deriving DecidableEq, Repr

/-- Test for an ECMAScript LineTerminator character: `.` in a regex
without the `s` flag matches any character EXCEPT these four, while the
negated class `[^:]` matches them. -/
def isLineTerminator (c : Char) : Bool :=
  c == '\n' || c == '\r' || c == '\u2028' || c == '\u2029'

/-- Post-`//` part of the backtracking match of
`^\/\/([^:]*):([^:]*)(?:\((.*)\))?$` in `gn.ts` `parseGnTargetName`:
the remainder must contain a `:`; the path is everything up to the first
`:`.  If the tail after that `:` is colon-free, the greedy `([^:]*)`
consumes all of it and the optional toolchain group is skipped.  Otherwise
the engine backtracks to the last `(` before the next `:`; the match
succeeds iff such a `(` exists, the string ends with `)`, and the span
between that `(` and the final `)` — the toolchain — contains no line
terminator, which the dotall-less `(.*)` cannot match (an earlier `(`
candidate only enlarges that span, so it cannot rescue a failed match). -/
def parseAfterSlash (rest : Str) : Option ParsedGnTargetName :=
  if rest.any (fun c => c == ':') then
    let path := rest.takeWhile (fun c => c != ':')
    let tail := (rest.dropWhile (fun c => c != ':')).tail
    if tail.any (fun c => c == ':') then
      match lastSplit '(' (tail.takeWhile (fun c => c != ':')) with
      | some (a, _) =>
        if tail.getLast? = some ')' then
          if ((tail.drop (a.length + 1)).dropLast).any isLineTerminator then none
          else some { path := path, target := a,
                      toolchain := some ((tail.drop (a.length + 1)).dropLast) }
        else none
      | none => none
    else some { path := path, target := tail, toolchain := none }
  else none

/-- Model of `gn.ts` `parseGnTargetName`: the string must start with `//`
(else the regex fails to match and an error is thrown); the remainder is
handled by `parseAfterSlash`. -/
def parseGnTargetName (l : Str) : Option ParsedGnTargetName :=
  (stripLead (str "//") l).bind parseAfterSlash

/-- A well-formed target name as described by the spec data model:
`path`, `shortName`, optional `toolchain`. -/
structure TargetName where
  path : Str
  shortName : Str
  toolchain : Option Str
deriving DecidableEq, Repr

/-- Modelled from the spec: the canonical formatted string
`//path:shortName(toolchain)?` of a target name (spec section 3); the
implementation builds these strings with template literals such as
`//${file}:${target}` and `${targetName}(${toolchain})`. -/
def formatTargetName (x : TargetName) : Str :=
  str "//" ++ (x.path ++ ':' :: (x.shortName ++
    (match x.toolchain with
     | some t => '(' :: (t ++ [')'])
     | none => [])))

example : parseGnTargetName (str "//a:b") =
    some { path := str "a", target := str "b", toolchain := none } := by decide

example : parseGnTargetName (str "//a:b(c)") =
    some { path := str "a", target := str "b(c)", toolchain := none } := by decide

example : parseGnTargetName (str "//p:b(x:y)") =
    some { path := str "p", target := str "b", toolchain := some (str "x:y") } := by decide

example : parseGnTargetName (str "//a:b:c") = none := by decide

example : parseGnTargetName (str "abc") = none := by decide

example : parseGnTargetName (str "//p:s(a\n:b)") = none := by decide

example : parseGnTargetName (str "//p:s\nq") =
    some { path := str "p", target := str "s\nq", toolchain := none } := by decide

/-- Model of the `GnTarget` interface in `gn.ts`.  Fields that are optional
in the TypeScript interface are `Option`s; the implementation reads them
with `|| []` style defaults. -/
structure GnTarget where
  deps : List Str
  type : Str := []
  toolchain : Str := []
  include_dirs : Option (List Str) := none
  defines : Option (List Str) := none
  sources : Option (List Str) := none
  inputs : Option (List Str) := none
  outputs : Option (List Str) := none
  args : Option (List Str) := none
  script : Option Str := none
  cflags : Option (List Str) := none
  cflags_cc : Option (List Str) := none
deriving DecidableEq, Repr

/-- Model of `GnBuild` in `gn.ts`: the target map in insertion order plus
the derived default toolchain (the toolchain of the required `//:all`
target, computed once at deserialization time). -/
structure GnBuild where
  targets : List (Str × GnTarget)
  defaultToolchain : Str
deriving Repr

/-- Model of `GnBuild.getTarget`: verbatim lookup for the default
toolchain, otherwise lookup of the qualified key `name(toolchain)`;
an absent key is a thrown error. -/
def GnBuild.getTarget (b : GnBuild) (toolchain name : Str) : Option GnTarget :=
  if toolchain = b.defaultToolchain then alookup b.targets name
  else alookup b.targets (name ++ '(' :: (toolchain ++ [')']))

/-- Model of `GnProject` in `gn.ts`: builds in insertion order. -/
structure GnProject where
  builds : List (Str × GnBuild)
deriving Repr

/-- Model of `GnProject.getBuild`; a missing build is a thrown error. -/
def GnProject.getBuild (p : GnProject) (buildName : Str) : Option GnBuild :=
  alookup p.builds buildName

/-- Model of the `GnTargetBuildConfig` record in `gyp.ts`: the traversal
unit (logical target name, build name, toolchain).  Structural equality
models the `JSON.stringify`-based value equality used by the visited set. -/
structure GnTargetCfg where
  name : Str
  build : Str
  toolchain : Str
deriving DecidableEq, Repr

/-- Unqualified name rebuilt for a dependency work item
(the template literal of `//<file>:<target>`). -/
def depName (pr : ParsedGnTargetName) : Str :=
  str "//" ++ pr.path ++ ':' :: pr.target

/-- Toolchain chosen for a dependency work item: the dependency's own
declared toolchain when truthy (`toolchain || gnBuildConfig.toolchain`),
otherwise the toolchain of the key currently being processed. -/
def depToolchain (cur : GnTargetCfg) (pr : ParsedGnTargetName) : Str :=
  match pr.toolchain with
  | some tc => if tc = [] then cur.toolchain else tc
  | none => cur.toolchain

/-- Dependency-to-work-item mapping done inside
`GypProject.getAllGnTargetDeps` (`gyp.ts`): parse the dependency name,
rebuild the unqualified name, keep the current build, and choose the
toolchain via `depToolchain`. -/
def depToConfig (cur : GnTargetCfg) (dep : Str) : Option GnTargetCfg :=
  (parseGnTargetName dep).map fun pr =>
    { name := depName pr,
      build := cur.build,
      toolchain := depToolchain cur pr }

/-- Fetch the target a work item denotes (`getBuild` then `getTarget`). -/
def getTargetOf (proj : GnProject) (k : GnTargetCfg) : Option GnTarget :=
  (proj.getBuild k.build).bind fun b => b.getTarget k.toolchain k.name

/-- Work items produced from the dependencies of the target fetched for
`k`, before the visited-set filter (`gyp.ts` `getAllGnTargetDeps`). -/
def stepConfigs (k : GnTargetCfg) (tgt : GnTarget) : Option (List GnTargetCfg) :=
  mapOpt (depToConfig k) tgt.deps

/-- One-loop-iteration-at-a-time model of the `while` loop of
`GypProject.getAllGnTargetDeps` (`gyp.ts` lines 511-529), with explicit
fuel for termination.  State: the visited set `seen` (insertion order), a
`trace` recording every dequeued key in order, and the work queue.  A
dequeued key is added to the visited set, fetched, and its dependency
configs (minus those already in the visited set) are appended to the
queue.  There is no membership check at dequeue time. -/
def closureAux (proj : GnProject) :
    Nat → List GnTargetCfg → List GnTargetCfg → List GnTargetCfg →
    Option (List GnTargetCfg × List GnTargetCfg)
  | 0, _, _, _ => none
  | fuel + 1, seen, trace, queue =>
    match queue with
    | [] => some (seen, trace)
    | k :: rest => do
      let seen1 := insSet seen k
      let tgt ← getTargetOf proj k
      let cfgs ← stepConfigs k tgt
      let deps := cfgs.filter (fun d => !decide (d ∈ seen1))
      closureAux proj fuel seen1 (trace ++ [k]) (rest ++ deps)

/-- Model of `GypProject.getAllGnTargetDeps`, additionally returning the
trace of dequeued keys.  The queue is seeded with one work item per build,
using the build's default toolchain. -/
def getAllGnTargetDepsTraced (proj : GnProject) (gnRootTarget : Str) (fuel : Nat) :
    Option (List GnTargetCfg × List GnTargetCfg) :=
  closureAux proj fuel [] []
    (proj.builds.map fun bb =>
      { name := gnRootTarget, build := bb.1, toolchain := bb.2.defaultToolchain })

/-- Model of `GypProject.getAllGnTargetDeps`: the visited set, in
insertion order, once the queue empties. -/
def getAllGnTargetDeps (proj : GnProject) (gnRootTarget : Str) (fuel : Nat) :
    Option (List GnTargetCfg) :=
  (getAllGnTargetDepsTraced proj gnRootTarget fuel).map (fun p => p.1)

/-- Model of the `GypAction` interface (`gyp.ts`). -/
structure GypAction where
  action_name : Str
  inputs : List Str
  outputs : List Str
  action : List Str
deriving DecidableEq, Repr

/-- Model of the `GypFields` interface (`gyp.ts`): the fields of a GYP
target that may also appear inside a `target_conditions` branch.  A field
that is absent from the JavaScript object is `none`. -/
structure GypFields where
  toolsets : Option (List Str) := none
  include_dirs : Option (List Str) := none
  dependencies : Option (List Str) := none
  defines : Option (List Str) := none
  sources : Option (List Str) := none
  actions : Option (List GypAction) := none
  cflags : Option (List Str) := none
  cflags_cc : Option (List Str) := none
  hard_dependency : Option Str := none
deriving DecidableEq, Repr

/-- Model of the `GypTarget` interface (`gyp.ts`): `GypFields` plus the
required name and type and the optional `target_conditions` array of
condition-expression / fields pairs. -/
structure GypTarget where
  target_name : Str
  type : Str
  toolsets : Option (List Str) := none
  include_dirs : Option (List Str) := none
  dependencies : Option (List Str) := none
  defines : Option (List Str) := none
  sources : Option (List Str) := none
  actions : Option (List GypAction) := none
  cflags : Option (List Str) := none
  cflags_cc : Option (List Str) := none
  hard_dependency : Option Str := none
  target_conditions : Option (List (Str × GypFields)) := none
deriving DecidableEq, Repr

/-- Projection of a stored fragment into a `target_conditions` branch as
done by `buildTarget` in `gyp.ts`: `dependencies` (and the side-channel
`outputs`) are deleted, every other conditional field is kept. -/
def toFieldsOld (f : GypTarget) : GypFields :=
  { toolsets := f.toolsets, include_dirs := f.include_dirs,
    dependencies := none, defines := f.defines, sources := f.sources,
    actions := f.actions, cflags := f.cflags, cflags_cc := f.cflags_cc,
    hard_dependency := f.hard_dependency }

/-- Projection of a stored fragment into a `target_conditions` branch as
done by the `buildTarget` in the `gn.ts` builder, which additionally
deletes `target_name`, `type` and `toolsets` from the branch object. -/
def toFieldsV2 (f : GypTarget) : GypFields :=
  { toolsets := none, include_dirs := f.include_dirs,
    dependencies := none, defines := f.defines, sources := f.sources,
    actions := f.actions, cflags := f.cflags, cflags_cc := f.cflags_cc,
    hard_dependency := f.hard_dependency }

/-- Condition expression attached to a toolset branch:
the template literal of `_toolset=="<toolset>"`. -/
def condExpr (b : Str) : Str := str "_toolset==\"" ++ b ++ [ '"' ]

/-- State of a `GypTargetBuilder` (`gyp.ts`): fragments per toolset in
insertion order (each stored together with its side-channel `outputs`
list, as the `Object.assign` call with the `outputs` property does), plus the
accumulated target name and type (initially empty strings). -/
structure BuilderState where
  targetFragments : List (Str × GypTarget × Option (List Str)) := []
  targetName : Str := []
  targetType : Str := []
deriving DecidableEq, Repr

/-- Model of `GypTargetBuilder.addTargetFragment` (`gyp.ts` lines 74-93):
the fragment must carry exactly one toolset and no `target_conditions`;
it is stored under that toolset with `Map.set` (replacing any previous
fragment for the same toolset), and the target name and type are
recomputed with `getOnlyMappedValue` over all stored fragments, which
throws unless they are unique. -/
def addTargetFragment (st : BuilderState) (fragment : GypTarget)
    (outputs : Option (List Str)) : Option BuilderState :=
  match fragment.toolsets with
  | some [toolchain] =>
    if fragment.target_conditions.isSome then none
    else
      let frags := mapSet st.targetFragments toolchain (fragment, outputs)
      match getOnlyMappedValue frags (fun p => p.2.1.target_name),
            getOnlyMappedValue frags (fun p => p.2.1.type) with
      | some n, some t =>
        some { targetFragments := frags, targetName := n, targetType := t }
      | _, _ => none
  | _ => none

/-- Strip the `#<toolset>` suffix from every dependency of a fragment
stored for toolset `b`; a dependency that does not end with that suffix is
a thrown error (`buildTarget` in `gyp.ts`). -/
def stripFragDeps (b : Str) (f : GypTarget) : Option (List Str) :=
  mapOpt (stripTail ('#' :: b)) (f.dependencies.getD [])

/-- Merged dependency computation of `buildTarget` for the multi-toolset
branch: strip the first fragment's dependencies, then require every other
fragment's stripped dependency list to be equal to it (`arrayEquals`),
throwing on any mismatch. -/
def mergeDeps : List (Str × GypTarget × Option (List Str)) → Option (List Str)
  | [] => some []
  | (b, f, _) :: rest => do
    let d0 ← stripFragDeps b f
    let ds ← mapOpt (fun p => stripFragDeps p.1 p.2.1) rest
    if ds.all (fun d => arrayEquals d d0) then some d0 else none

/-- Model of `GypTargetBuilder.buildTarget` (`gyp.ts` lines 100-146).
With a single stored fragment the result is that fragment with the
accumulated name/type and the toolset list (and without the side-channel
`outputs`).  Otherwise the per-toolset dependency lists are merged (equal
after stripping `#<toolset>`, else error) and every other field moves into
a `target_conditions` branch per toolset. -/
def buildTargetOld (st : BuilderState) : Option GypTarget :=
  match st.targetFragments with
  | [(b, f, _)] =>
    some { f with target_name := st.targetName, type := st.targetType,
                  toolsets := some [b] }
  | frags => do
    let deps ← mergeDeps frags
    some { target_name := st.targetName, type := st.targetType,
           toolsets := some (frags.map (fun p => p.1)),
           target_conditions :=
             some (frags.map fun p => (condExpr p.1, toFieldsOld p.2.1)),
           dependencies := some deps }

/-- Variant of `buildTargetOld` for the builder embedded in `gn.ts`, whose
condition branches also drop `target_name`, `type` and `toolsets`. -/
def buildTargetV2 (st : BuilderState) : Option GypTarget :=
  match st.targetFragments with
  | [(b, f, _)] =>
    some { f with target_name := st.targetName, type := st.targetType,
                  toolsets := some [b] }
  | frags => do
    let deps ← mergeDeps frags
    some { target_name := st.targetName, type := st.targetType,
           toolsets := some (frags.map (fun p => p.1)),
           target_conditions :=
             some (frags.map fun p => (condExpr p.1, toFieldsV2 p.2.1)),
           dependencies := some deps }

/-- Side-channel outputs check of `buildProxy`: a stored fragment must
declare exactly one output; anything else is a thrown error. -/
def singleOut (p : Str × GypTarget × Option (List Str)) : Option Str :=
  match p.2.2 with
  | some [o] => some o
  | _ => none

/-- A proxy copy action (`buildProxy` in `gyp.ts` / the `gn.ts` builder):
copy the executable from its default product path to the single declared
output of the toolset. -/
def copyAction (actionName name o : Str) : GypAction :=
  { action_name := actionName,
    inputs := [str "<@(PRODUCT_DIR)/" ++ name ++ str "_proxy"],
    outputs := [o],
    action := [str "cp", str "<@(_inputs)", str "<@(_outputs)"] }

/-- Model of `GypTargetBuilder.buildProxy` (`gyp.ts` lines 153-193),
parameterized by the action name (`move_as_expected_output` in `gyp.ts`,
`copy_as_expected_output` in the `gn.ts` builder): only meaningful for
executables; each stored fragment must declare exactly one output; the
facade target is named after the logical target, has type `none`, depends
on the `_proxy` target, and carries the copy action directly when there is
one toolset and inside `target_conditions` branches otherwise. -/
def buildProxyCore (actionName : Str) (st : BuilderState) : Option GypTarget :=
  if st.targetType = str "executable" then
    (mapOpt (fun p =>
        (singleOut p).map fun o =>
          ({ actions := some [copyAction actionName st.targetName o] } : GypFields))
      st.targetFragments).map fun actionsForBuilds =>
      let builds := st.targetFragments.map (fun p => p.1)
      let base : GypTarget :=
        { target_name := st.targetName, type := str "none",
          dependencies := some [st.targetName ++ str "_proxy"],
          toolsets := some builds }
      match actionsForBuilds with
      | [a] => { base with actions := a.actions }
      | _ =>
        let tcs := (builds.zip actionsForBuilds).map fun p => (condExpr p.1, p.2)
        { base with target_conditions := some tcs }
  else none

/-- Model of `GypTargetBuilder.buildWithProxy` (`gyp.ts` lines 204-216):
error when no fragment was added; an `executable` merged target is renamed
`<name>_proxy` and paired with the copy facade; EVERY other type,
including `static_library`, is returned alone and unrenamed. -/
def buildWithProxyOld (st : BuilderState) : Option (List GypTarget) :=
  if st.targetName = [] ∨ st.targetType = [] then none
  else do
    let mainTarget ← buildTargetOld st
    if st.targetType = str "executable" then do
      let proxyTarget ← buildProxyCore (str "move_as_expected_output") st
      some [{ mainTarget with target_name := st.targetName ++ str "_proxy" },
            proxyTarget]
    else some [mainTarget]

/-- Model of `GypTargetBuilder.buildWithProxy` of the builder embedded in
`gn.ts` (lines 492-509): like `buildWithProxyOld` for executables (with
the `copy_as_expected_output` action name), but a `static_library` merged
target is ALSO renamed `<name>_proxy` and paired with a thin wrapper
target (`buildProxyForStaticLibraryTarget`) under the original name that
depends on it and carries no actions. -/
def buildWithProxyV2 (st : BuilderState) : Option (List GypTarget) :=
  if st.targetName = [] ∨ st.targetType = [] then none
  else do
    let mainTarget ← buildTargetV2 st
    if st.targetType = str "executable" then do
      let proxyTarget ← buildProxyCore (str "copy_as_expected_output") st
      some [{ mainTarget with target_name := st.targetName ++ str "_proxy" },
            proxyTarget]
    else if st.targetType = str "static_library" then
      some [{ mainTarget with target_name := st.targetName ++ str "_proxy" },
            { target_name := st.targetName, type := str "none",
              dependencies := some [st.targetName ++ str "_proxy"],
              toolsets := some (st.targetFragments.map (fun p => p.1)) }]
    else some [mainTarget]

/-- Model of `gypifyTargetName` (`gyp.ts`): drop everything from the first
`(` on, drop the leading `//`, replace the first `:` and every `/` and `+`
with `_`. -/
def gypifyTargetName (n : Str) : Str :=
  let n := n.takeWhile (fun c => c != '(')
  let n := n.drop 2
  let n := replaceFirst ':' '_' n
  let n := n.map (fun c => if c = '/' then '_' else c)
  n.map (fun c => if c = '+' then '_' else c)

/-- Model of `gypifyTargetType` (`gyp.ts`): `source_set` becomes
`static_library`; `group`, `action`, `action_foreach` and `copy` become
`none`; everything else maps to itself. -/
def gypifyTargetType (gnType : Str) : Str :=
  if gnType = str "source_set" then str "static_library"
  else if gnType = str "group" ∨ gnType = str "action" ∨
          gnType = str "action_foreach" ∨ gnType = str "copy" then str "none"
  else gnType

/-- Generated-output prefix `//out/<build>/` of a GN build. -/
def outPre (build : Str) : Str := str "//out/" ++ build ++ [ '/' ]

/-- Model of `gypifyPath` (`gyp.ts` lines 270-278): a path under
`//out/<build>/` is rewritten to the shared-intermediate token plus the
remainder; any other path starting with `//` is rewritten to the
project-root token `../` plus the remainder; anything else is a thrown
error. -/
def gypifyPath (build p : Str) : Option Str :=
  match stripLead (outPre build) p with
  | some rest => some (str "<(SHARED_INTERMEDIATE_DIR)/" ++ rest)
  | none =>
    match stripLead (str "//") p with
    | some rest => some (str "../" ++ rest)
    | none => none

/-- Test of the `^-[Ii]` regex of `extractIncludes`. -/
def isIncludeFlag (f : Str) : Bool :=
  match f with
  | '-' :: 'I' :: _ => true
  | '-' :: 'i' :: _ => true
  | _ => false

/-- Model of `extractIncludes` (`gyp.ts` lines 284-297): for every cflag
matching `^-[Ii]`, record the NEXT token with its first three characters
(`../`) lopped off; an include flag in last position is a thrown error.
The scan advances one token at a time, so the recorded token itself is
also inspected as a potential flag. -/
def extractIncludes : List Str → Option (List Str)
  | [] => some []
  | f :: rest =>
    if isIncludeFlag f then
      match rest with
      | [] => none
      | n :: _ => (extractIncludes rest).map (fun r => n.drop 3 :: r)
    else extractIncludes rest

/-- The fixed GN-toolchain-to-GYP-toolset table of `GypProjectBuilder`. -/
def toolchainMap (tc : Str) : Option Str :=
  if tc = str "//gn/standalone/toolchain:gcc_like_host" then some (str "host")
  else if tc = str "//gn/standalone/toolchain:gcc_like" then some (str "target")
  else none

/-- Model of `GypProjectBuilder.toGypToolset` (`gyp.ts`): an empty (falsy)
toolchain falls back to the build's default toolchain; an unmapped
toolchain is a thrown error. -/
def toGypToolsetOld (proj : GnProject) (gnBuildName gnToolchain : Str) : Option Str := do
  let tc ← if gnToolchain = [] then (proj.getBuild gnBuildName).map (fun b => b.defaultToolchain)
           else some gnToolchain
  toolchainMap tc

/-- Model of `GypProjectBuilder.toGypTargetFragment` (`gyp.ts` lines
348-453).  Include dirs come from the rewritten `include_dirs` and the
cflag scan, deduplicated.  Sources and dependencies are rewritten; for a
`static_library` destination type the placeholder source
`<(SHARED_INTERMEDIATE_DIR)/empty.cc` and a dependency
`gen_empty_cc#<toolset>` are appended UNCONDITIONALLY.  GN `action` /
`copy` targets get a synthesized GYP action (`action_foreach` is a thrown
error), with script arguments passed through the injected
`correctPaths` function. -/
def toGypTargetFragmentOld (proj : GnProject)
    (correctPaths : Str → List Str → List Str)
    (gnTarget : GnTarget) (cfg : GnTargetCfg) : Option GypTarget := do
  let includeMapped ← mapOpt (gypifyPath cfg.build) (gnTarget.include_dirs.getD [])
  let flagIncludes ← extractIncludes (gnTarget.cflags.getD [])
  let includeDirs := dedupL (includeMapped ++ flagIncludes)
  let targetName := gypifyTargetName cfg.name
  let targetType := gypifyTargetType gnTarget.type
  let targetToolchain ← toGypToolsetOld proj cfg.build cfg.toolchain
  let sources0 ← mapOpt (gypifyPath cfg.build) (gnTarget.sources.getD [])
  let deps0 ← mapOpt (fun dep => do
      let pr ← parseGnTargetName dep
      let ts ← toGypToolsetOld proj cfg.build (pr.toolchain.getD [])
      pure (gypifyTargetName (str "//" ++ pr.path ++ ':' :: pr.target) ++ '#' :: ts))
    gnTarget.deps
  let isStatic := targetType = str "static_library"
  let sources1 := if isStatic
    then sources0 ++ [str "<(SHARED_INTERMEDIATE_DIR)/empty.cc"] else sources0
  let deps1 := if isStatic
    then deps0 ++ [str "gen_empty_cc#" ++ targetToolchain] else deps0
  let base : GypTarget :=
    { target_name := targetName, type := targetType,
      include_dirs := some includeDirs,
      defines := some (gnTarget.defines.getD []),
      sources := some sources1,
      dependencies := some deps1,
      cflags := some (gnTarget.cflags.getD []),
      cflags_cc := some (gnTarget.cflags_cc.getD []),
      hard_dependency := some (str "True"),
      toolsets := some [targetToolchain] }
  if gnTarget.type = str "action" then do
    let script ← match gnTarget.script with
                 | some s => if s = [] then none else some s
                 | none => none
    let metaInputs := gnTarget.inputs.getD [] ++ gnTarget.sources.getD []
    let actInputs ← mapOpt (gypifyPath cfg.build) metaInputs
    let actOutputs ← mapOpt (gypifyPath cfg.build) (gnTarget.outputs.getD [])
    let scriptPath ← gypifyPath cfg.build script
    let act : GypAction :=
      { action_name := targetName ++ str "_action",
        inputs := actInputs,
        outputs := actOutputs,
        action := (if (str ".py").isSuffixOf script then [str "python"] else []) ++
          scriptPath :: correctPaths script (gnTarget.args.getD []) }
    some { base with actions := some [act] }
  else if gnTarget.type = str "action_foreach" then none
  else if gnTarget.type = str "copy" then do
    let actOutputs ← mapOpt (gypifyPath cfg.build) (gnTarget.outputs.getD [])
    let act : GypAction :=
      { action_name := targetName ++ str "_action",
        inputs := sources0,
        outputs := actOutputs,
        action := [str "cp", str "<@(_inputs)", str "<@(_outputs)"] }
    some { base with actions := some [act] }
  else some base

/-- Whether a translated source path counts as a compiled source for the
placeholder check in the `gn.ts` translator (`source.endsWith('.cc')`). -/
def endsCC (s : Str) : Bool := (str ".cc").isSuffixOf s

/-- Model of `GypProjectBuilder.getGenDirectoryForToolset` in `gn.ts`:
the shared-intermediate token, with the toolchain's short name appended
for a non-default toolchain. -/
def getGenDirectoryForToolsetV2 (proj : GnProject) (toolchain build : Str) :
    Option Str := do
  let b ← proj.getBuild build
  if toolchain = b.defaultToolchain then pure (str "<(SHARED_INTERMEDIATE_DIR)")
  else do
    let pr ← parseGnTargetName toolchain
    pure (str "<(SHARED_INTERMEDIATE_DIR)/" ++ pr.target)

/-- Model of the sources block of `toGypTargetFragment` in `gn.ts` (lines
775-783): given the gen directory for the fragment's toolset, the
destination toolset, the destination type, the translated sources and the
dependencies so far, append `<genDir>/gen/empty.cc` and a dependency
`./empty.gyp:gen_empty_cc#<toolset>` exactly when the type is
`static_library` and no translated source ends with `.cc`. -/
def v2SourcesBlock (genDir toolset targetType : Str)
    (sources deps : List Str) : List Str × List Str :=
  if targetType = str "static_library" then
    if sources.any endsCC then (sources, deps)
    else (sources ++ [genDir ++ str "/gen/empty.cc"],
          deps ++ [str "./empty.gyp:gen_empty_cc#" ++ toolset])
  else (sources, deps)

theorem stripLead_append (pre r : Str) : stripLead pre (pre ++ r) = some r := by
  induction pre with
  | nil => cases r <;> simp [stripLead]
  | cons p ps ih => simp [stripLead, ih]

theorem mapOpt_mem {α β : Type} {f : α → Option β} {l : List α} {l' : List β} {a : α}
    (h : mapOpt f l = some l') (ha : a ∈ l) : ∃ b, f a = some b ∧ b ∈ l' := by
  induction l generalizing l' with
  | nil => cases ha
  | cons x xs ih =>
    rw [mapOpt] at h
    cases hx : f x with
    | none => rw [hx] at h; exact absurd h (by simp)
    | some b =>
      rw [hx] at h
      cases hxs : mapOpt f xs with
      | none => rw [hxs] at h; exact absurd h (by simp)
      | some bs =>
        rw [hxs] at h
        cases h
        rcases List.mem_cons.mp ha with rfl | hmem
        · exact ⟨b, hx, List.mem_cons_self _ _⟩
        · obtain ⟨b2, hb2, hb2m⟩ := ih hxs hmem
          exact ⟨b2, hb2, List.mem_cons_of_mem _ hb2m⟩

theorem mapOpt_eq_some_of_forall {α β : Type} {f : α → Option β} {g : α → β}
    {l : List α} (h : ∀ a ∈ l, f a = some (g a)) : mapOpt f l = some (l.map g) := by
  induction l with
  | nil => rfl
  | cons x xs ih =>
    rw [mapOpt, h x (List.mem_cons_self _ _), ih (fun a ha => h a (List.mem_cons_of_mem _ ha))]
    rfl

theorem mapOpt_length {α β : Type} {f : α → Option β} {l : List α} {l' : List β}
    (h : mapOpt f l = some l') : l'.length = l.length := by
  induction l generalizing l' with
  | nil => rw [mapOpt] at h; cases h; rfl
  | cons x xs ih =>
    rw [mapOpt] at h
    cases hx : f x with
    | none => rw [hx] at h; exact absurd h (by simp)
    | some b =>
      rw [hx] at h
      cases hxs : mapOpt f xs with
      | none => rw [hxs] at h; exact absurd h (by simp)
      | some bs => rw [hxs] at h; cases h; simp [ih hxs]

theorem mapOpt_map_comp {α β γ : Type} (f : α → Option β) (g : β → γ) (l : List α) :
    mapOpt (fun a => (f a).map g) l = (mapOpt f l).map (List.map g) := by
  induction l with
  | nil => rfl
  | cons x xs ih =>
    rw [mapOpt, ih, mapOpt]
    cases f x <;> cases mapOpt f xs <;> simp [Option.map]

theorem mem_insSet {α : Type} [DecidableEq α] {l : List α} {a x : α} :
    x ∈ insSet l a ↔ x ∈ l ∨ x = a := by
  unfold insSet
  by_cases h : a ∈ l
  · simp only [h, if_true]
    constructor
    · exact Or.inl
    · rintro (hx | rfl)
      · exact hx
      · exact h
  · simp [h]

theorem insSet_nodup {α : Type} [DecidableEq α] {l : List α} {a : α}
    (h : l.Nodup) : (insSet l a).Nodup := by
  unfold insSet
  by_cases ha : a ∈ l
  · simpa [ha]
  · simpa [ha, List.nodup_append] using h

theorem mem_foldl_insSet {α : Type} [DecidableEq α] (l acc : List α) (x : α) :
    x ∈ List.foldl insSet acc l ↔ x ∈ acc ∨ x ∈ l := by
  induction l generalizing acc with
  | nil => simp
  | cons y ys ih =>
    rw [List.foldl_cons, ih, mem_insSet]
    constructor
    · rintro ((h | rfl) | h)
      · exact Or.inl h
      · exact Or.inr (List.mem_cons_self _ _)
      · exact Or.inr (List.mem_cons_of_mem _ h)
    · rintro (h | h)
      · exact Or.inl (Or.inl h)
      · rcases List.mem_cons.mp h with rfl | h
        · exact Or.inl (Or.inr rfl)
        · exact Or.inr h

theorem mem_dedupL {α : Type} [DecidableEq α] (l : List α) (x : α) :
    x ∈ dedupL l ↔ x ∈ l := by
  unfold dedupL
  rw [mem_foldl_insSet]
  simp

theorem getOnlyMappedValue_eq {α β : Type} [DecidableEq β] {l : List α}
    {f : α → β} {v : β} (h : getOnlyMappedValue l f = some v) :
    ∀ x ∈ l, f x = v := by
  intro x hx
  unfold getOnlyMappedValue at h
  cases hd : dedupL (l.map f) with
  | nil => rw [hd] at h; exact absurd h (by simp)
  | cons b bs =>
    cases bs with
    | nil =>
      rw [hd] at h
      cases h
      have : f x ∈ dedupL (l.map f) := (mem_dedupL _ _).mpr (List.mem_map_of_mem f hx)
      rw [hd] at this
      simpa using this
    | cons b2 bs2 => rw [hd] at h; exact absurd h (by simp)

theorem alookup_mapSet_self {α : Type} (m : List (Str × α)) (k : Str) (v : α) :
    alookup (mapSet m k v) k = some v := by
  induction m with
  | nil => simp [mapSet, alookup]
  | cons p ps ih =>
    rw [mapSet]
    by_cases hp : p.1 = k
    · simp [hp, alookup]
    · simp [hp, alookup, ih]

theorem mapSet_mem_self {α : Type} (m : List (Str × α)) (k : Str) (v : α) :
    (k, v) ∈ mapSet m k v := by
  induction m with
  | nil => simp [mapSet]
  | cons p ps ih =>
    rw [mapSet]
    by_cases hp : p.1 = k
    · simp [hp]
    · simp only [hp, if_false]
      exact List.mem_cons_of_mem _ ih

theorem mapSet_mem_other {α : Type} {m : List (Str × α)} {k1 : Str} {v1 : α}
    (k : Str) (v : α) (hmem : (k1, v1) ∈ m) (hne : k1 ≠ k) :
    (k1, v1) ∈ mapSet m k v := by
  induction m with
  | nil => cases hmem
  | cons p ps ih =>
    rw [mapSet]
    by_cases hp : p.1 = k
    · rcases List.mem_cons.mp hmem with rfl | hmem2
      · exact absurd hp hne
      · simp only [hp, if_true]
        exact List.mem_cons_of_mem _ hmem2
    · simp only [hp, if_false]
      rcases List.mem_cons.mp hmem with rfl | hmem2
      · exact List.mem_cons_self _ _
      · exact List.mem_cons_of_mem _ (ih hmem2)

theorem zip_map_right_eq {α β γ : Type} (l : List α) (l2 : List β) (g : β → γ) :
    l.zip (l2.map g) = (l.zip l2).map (fun p => (p.1, g p.2)) := by
  induction l generalizing l2 with
  | nil => simp
  | cons x xs ih =>
    cases l2 with
    | nil => simp
    | cons y ys => simp [List.zip_cons_cons, ih]

theorem stripLead_append_eq (a b s : Str) :
    stripLead (a ++ b) s = (stripLead a s).bind (stripLead b) := by
  induction a generalizing s with
  | nil => simp [stripLead]
  | cons p ps ih =>
    cases s with
    | nil => simp [stripLead]
    | cons c cs =>
      by_cases hp : p = c
      · simp [stripLead, hp, ih]
      · simp [stripLead, hp]

theorem addTargetFragment_some {st : BuilderState} {f : GypTarget}
    {o : Option (List Str)} {st2 : BuilderState}
    (h : addTargetFragment st f o = some st2) :
    ∃ t, f.toolsets = some [t] ∧
      st2.targetFragments = mapSet st.targetFragments t (f, o) ∧
      getOnlyMappedValue st2.targetFragments (fun p => p.2.1.target_name) =
        some st2.targetName ∧
      getOnlyMappedValue st2.targetFragments (fun p => p.2.1.type) =
        some st2.targetType := by
  rw [addTargetFragment] at h
  split at h
  case h_1 toolchain heq =>
    split at h
    · cases h
    · dsimp only at h
      split at h
      case h_1 n t hn ht =>
        cases h
        exact ⟨toolchain, heq, rfl, hn, ht⟩
      case h_2 => cases h
  case h_2 => cases h

/-- Claim C9: the path rewriter maps every path under the build's
generated-output prefix `//out/<build>/` to the shared-intermediate token
plus the remainder, every other path starting with `//` to the
project-root token plus the remainder, and throws for every path of any
other shape. -/
theorem claim_C9 (build p : Str) :
    (∀ r, p = outPre build ++ r →
      gypifyPath build p = some (str "<(SHARED_INTERMEDIATE_DIR)/" ++ r)) ∧
    (stripLead (outPre build) p = none → ∀ r, p = str "//" ++ r →
      gypifyPath build p = some (str "../" ++ r)) ∧
    (stripLead (str "//") p = none → gypifyPath build p = none) := by
  refine ⟨?_, ?_, ?_⟩
  · rintro r rfl
    rw [gypifyPath, stripLead_append]
  · rintro hout r rfl
    rw [gypifyPath, hout, stripLead_append]
  · intro h2
    have hsplit : outPre build = str "//" ++ (str "out/" ++ build ++ [ '/' ]) := by
      rw [outPre]; rfl
    have hout : stripLead (outPre build) p = none := by
      rw [hsplit, stripLead_append_eq, h2]; rfl
    rw [gypifyPath, hout, h2]

/-- Witness for claim C9 at concrete paths: a generated path, a
project-root path and a malformed path. -/
theorem claim_C9_witness :
    gypifyPath (str "b") (str "//out/b/gen/x.h") =
      some (str "<(SHARED_INTERMEDIATE_DIR)/gen/x.h") ∧
    gypifyPath (str "b") (str "//foo/bar.cc") = some (str "../foo/bar.cc") ∧
    gypifyPath (str "b") (str "x/y.cc") = none :=
  ⟨(claim_C9 (str "b") (str "//out/b/gen/x.h")).1 (str "gen/x.h") (by decide),
   (claim_C9 (str "b") (str "//foo/bar.cc")).2.1 (by decide) (str "foo/bar.cc") (by decide),
   (claim_C9 (str "b") (str "x/y.cc")).2.2 (by decide)⟩

/-- First fragment of the claim C2 counterexample (toolset `host`). -/
def exC2F1 : GypTarget :=
  { target_name := str "t", type := str "none",
    toolsets := some [str "host"], sources := some [str "a.cc"] }

/-- Second fragment of the claim C2 counterexample: same toolset `host`,
different sources. -/
def exC2F2 : GypTarget :=
  { target_name := str "t", type := str "none",
    toolsets := some [str "host"], sources := some [str "b.cc"] }

/-- Counterexample to claim C2: adding a second fragment for a toolset
that already has one does NOT raise an error; the call succeeds and the
second fragment silently replaces the first (`Map.set` overwrites).  There
is no duplicate-toolset check in `addTargetFragment`. -/
theorem claim_C2_cex :
    (do
      let s1 ← addTargetFragment {} exC2F1 none
      addTargetFragment s1 exC2F2 none) =
    some { targetFragments := [(str "host", exC2F2, none)],
           targetName := str "t", targetType := str "none" } := by decide

/-- Claim C2 (amended): a second fragment for an already-present toolset
is accepted whenever the usual checks pass, and it replaces the first:
after any successful `addTargetFragment` the fragment stored under the
added toolset is the new fragment. -/
theorem claim_C2 (st : BuilderState) (f : GypTarget) (o : Option (List Str))
    (t : Str) (st2 : BuilderState)
    (ht : f.toolsets = some [t])
    (h : addTargetFragment st f o = some st2) :
    alookup st2.targetFragments t = some (f, o) := by
  obtain ⟨t2, ht2, hfr, -, -⟩ := addTargetFragment_some h
  rw [ht] at ht2
  cases ht2
  rw [hfr]
  exact alookup_mapSet_self _ _ _

/-- Intermediate builder state used by the claim C2 witness. -/
def exC2S1 : BuilderState :=
  { targetFragments := [(str "host", exC2F1, none)],
    targetName := str "t", targetType := str "none" }

/-- Final builder state used by the claim C2 witness. -/
def exC2S2 : BuilderState :=
  { targetFragments := [(str "host", exC2F2, none)],
    targetName := str "t", targetType := str "none" }

/-- Witness for claim C2: the replacement conclusion at the concrete
same-toolset second add. -/
theorem claim_C2_witness :
    alookup exC2S2.targetFragments (str "host") = some (exC2F2, none) :=
  claim_C2 exC2S1 exC2F2 none (str "host") exC2S2 (by decide) (by decide)

/-- First fragment of the claim C10 counterexample (name `A`). -/
def exC10G1 : GypTarget :=
  { target_name := str "A", type := str "none", toolsets := some [str "host"] }

/-- Second fragment of the claim C10 counterexample: same toolset, but a
DIFFERENT target name `B`. -/
def exC10G2 : GypTarget :=
  { target_name := str "B", type := str "none", toolsets := some [str "host"] }

/-- Counterexample to claim C10: a fragment whose `target_name` differs
from a previously added fragment does NOT always raise an error: when it
arrives under the same toolset it evicts the earlier fragment before the
uniqueness check runs, so the add succeeds and the builder's name becomes
the new one. -/
theorem claim_C10_cex :
    (do
      let s1 ← addTargetFragment {} exC10G1 none
      addTargetFragment s1 exC10G2 none) =
    some { targetFragments := [(str "host", exC10G2, none)],
           targetName := str "B", targetType := str "none" } := by decide

/-- Claim C10 (amended): after every successful `addTargetFragment` all
RETAINED fragments share one target name and one type (so the merger's
name and type are well defined at finalize), and a fragment whose name or
type differs from a fragment stored under a DIFFERENT toolset is rejected.
Only a same-toolset conflict escapes the check, because `Map.set` evicts
the old fragment first. -/
theorem claim_C10 (st : BuilderState) (f : GypTarget) (o : Option (List Str)) :
    (∀ st2, addTargetFragment st f o = some st2 →
      ∀ q ∈ st2.targetFragments,
        q.2.1.target_name = st2.targetName ∧ q.2.1.type = st2.targetType) ∧
    (∀ t t1 f1 o1, f.toolsets = some [t] →
      (t1, f1, o1) ∈ st.targetFragments → t1 ≠ t →
      (f1.target_name ≠ f.target_name ∨ f1.type ≠ f.type) →
      addTargetFragment st f o = none) := by
  constructor
  · intro st2 h q hq
    obtain ⟨t2, -, -, hn, hty⟩ := addTargetFragment_some h
    exact ⟨getOnlyMappedValue_eq hn q hq, getOnlyMappedValue_eq hty q hq⟩
  · intro t t1 f1 o1 ht hmem hne hdiff
    cases hres : addTargetFragment st f o with
    | none => rfl
    | some st2 =>
      obtain ⟨t2, ht2, hfr, hn, hty⟩ := addTargetFragment_some hres
      rw [ht] at ht2
      cases ht2
      have hf : (t, f, o) ∈ st2.targetFragments := by
        rw [hfr]; exact mapSet_mem_self _ _ _
      have hf1 : (t1, f1, o1) ∈ st2.targetFragments := by
        rw [hfr]; exact mapSet_mem_other _ _ hmem hne
      rcases hdiff with hd | hd
      · exact absurd ((getOnlyMappedValue_eq hn _ hf1).trans
          (getOnlyMappedValue_eq hn _ hf).symm) hd
      · exact absurd ((getOnlyMappedValue_eq hty _ hf1).trans
          (getOnlyMappedValue_eq hty _ hf).symm) hd

/-- Prior builder state used by the claim C10 witness: a fragment named
`A` is stored under toolset `host`. -/
def exC10St : BuilderState :=
  { targetFragments := [(str "host", exC10G1, none)],
    targetName := str "A", targetType := str "none" }

/-- Conflicting fragment used by the claim C10 witness: name `B` arriving
under the OTHER toolset `target`. -/
def exC10F : GypTarget :=
  { target_name := str "B", type := str "none", toolsets := some [str "target"] }

/-- Witness for claim C10: the cross-toolset name conflict is fatal at a
concrete input. -/
theorem claim_C10_witness : addTargetFragment exC10St exC10F none = none :=
  (claim_C10 exC10St exC10F none).2 (str "target") (str "host") exC10G1 none
    (by decide) (by decide) (by decide) (by decide)

/-- Merged static-library fragment of the claim C7 counterexample. -/
def exC7F : GypTarget :=
  { target_name := str "lib", type := str "static_library",
    toolsets := some [str "host"], sources := some [str "../a.cc"] }

/-- Builder state of the claim C7 counterexample: one accumulated
static-library fragment. -/
def exC7St : BuilderState :=
  { targetFragments := [(str "host", exC7F, none)],
    targetName := str "lib", targetType := str "static_library" }

/-- Counterexample to claim C7: `buildWithProxy` in `gyp.ts` returns a
static-library merged target ALONE and UNRENAMED (a one-element list whose
target keeps the name `lib`), not the rename-plus-wrapper pair the claim
describes; only the builder embedded in `gn.ts` performs that expansion. -/
theorem claim_C7_cex : buildWithProxyOld exC7St = some [exC7F] := by decide

/-- Claim C7 (amended): the `buildWithProxy` of the builder embedded in
`gn.ts` (lines 492-509) DOES perform the rename-plus-wrapper expansion for
a merged static-library target: the merged target is renamed
`<name>_proxy` and a second target of type `none` under the original name
is returned that depends on `<name>_proxy` (without copy actions, unlike
the executable case); the `gyp.ts` builder returns the merged target
unchanged. -/
theorem claim_C7 (st : BuilderState) (m : GypTarget)
    (hn : st.targetName ≠ [])
    (hty : st.targetType = str "static_library")
    (hm : buildTargetV2 st = some m) :
    buildWithProxyV2 st =
      some [{ m with target_name := st.targetName ++ str "_proxy" },
            { target_name := st.targetName, type := str "none",
              dependencies := some [st.targetName ++ str "_proxy"],
              toolsets := some (st.targetFragments.map (fun p => p.1)) }] := by
  have h1 : ¬ (st.targetName = [] ∨ st.targetType = []) := by
    rintro (h | h)
    · exact hn h
    · rw [hty] at h
      exact absurd h (by decide)
  rw [buildWithProxyV2, if_neg h1, hm]
  simp only [Option.bind_eq_bind, Option.some_bind]
  rw [hty, if_neg (by decide), if_pos rfl]

/-- Fragment of the claim C7 witness. -/
def exC7VF : GypTarget :=
  { target_name := str "lib2", type := str "static_library",
    toolsets := some [str "host"] }

/-- Builder state of the claim C7 witness. -/
def exC7V2St : BuilderState :=
  { targetFragments := [(str "host", exC7VF, none)],
    targetName := str "lib2", targetType := str "static_library" }

/-- Witness for claim C7 at a concrete one-fragment static library. -/
theorem claim_C7_witness :
    buildWithProxyV2 exC7V2St =
      some [{ exC7VF with target_name := str "lib2_proxy" },
            { target_name := str "lib2", type := str "none",
              dependencies := some [str "lib2_proxy"],
              toolsets := some [str "host"] }] :=
  claim_C7 exC7V2St exC7VF (by decide) (by decide) (by decide)

/-- GN target of the claim C6 counterexample: a static library whose only
source IS a compiled `.cc` file. -/
def exC6Gn : GnTarget :=
  { deps := [], type := str "static_library",
    sources := some [str "//a.cc"] }

/-- Build config of the claim C6 counterexample. -/
def exC6Cfg : GnTargetCfg :=
  { name := str "//x:lib", build := str "b",
    toolchain := str "//gn/standalone/toolchain:gcc_like" }

/-- Project of the claim C6 counterexample (never consulted: the config
carries an explicit toolchain and the target has no dependencies). -/
def exC6Proj : GnProject := { builds := [] }

/-- Fragment produced by the `gyp.ts` translator in the claim C6
counterexample. -/
def exC6Frag : GypTarget :=
  { target_name := str "x_lib", type := str "static_library",
    include_dirs := some [], defines := some [],
    sources := some [str "../a.cc", str "<(SHARED_INTERMEDIATE_DIR)/empty.cc"],
    dependencies := some [str "gen_empty_cc#target"],
    cflags := some [], cflags_cc := some [],
    hard_dependency := some (str "True"), toolsets := some [str "target"] }

/-- Counterexample to claim C6: the `gyp.ts` translator (lines 383-386)
injects the placeholder source and the `gen_empty_cc#<toolset>` dependency
UNCONDITIONALLY for every static-library fragment: here the translated
sources already contain the compiled source `../a.cc`, yet `empty.cc` is
still appended, violating the claim's `only if no .cc entry` direction. -/
theorem claim_C6_cex :
    toGypTargetFragmentOld exC6Proj (fun _ args => args) exC6Gn exC6Cfg =
      some exC6Frag ∧
    endsCC (str "../a.cc") = true := by decide

/-- Claim C6 (amended): the conditional injection the claim describes is
the sources block of the translator embedded in `gn.ts` (lines 775-783):
for a static-library destination type, exactly one synthetic source
`<genDir>/gen/empty.cc` and exactly one dependency
`./empty.gyp:gen_empty_cc#<toolset>` (the fragment's own toolset) are
appended if and only if no translated source ends in `.cc`; the older
`gyp.ts` translator instead injects unconditionally. -/
theorem claim_C6 (genDir toolset : Str) (sources deps : List Str) :
    (sources.any endsCC = false →
      v2SourcesBlock genDir toolset (str "static_library") sources deps =
        (sources ++ [genDir ++ str "/gen/empty.cc"],
         deps ++ [str "./empty.gyp:gen_empty_cc#" ++ toolset])) ∧
    (sources.any endsCC = true →
      v2SourcesBlock genDir toolset (str "static_library") sources deps =
        (sources, deps)) ∧
    (∀ ty, ty ≠ str "static_library" →
      v2SourcesBlock genDir toolset ty sources deps = (sources, deps)) := by
  refine ⟨?_, ?_, ?_⟩
  · intro h
    rw [v2SourcesBlock, if_pos rfl, h]
    rfl
  · intro h
    rw [v2SourcesBlock, if_pos rfl, h]
    rfl
  · intro ty hty
    rw [v2SourcesBlock, if_neg hty]

/-- Witness for claim C6: both directions of the conditional injection at
concrete source lists. -/
theorem claim_C6_witness :
    v2SourcesBlock (str "<(SHARED_INTERMEDIATE_DIR)") (str "host")
        (str "static_library") [str "../x.h"] [str "d#host"] =
      ([str "../x.h", str "<(SHARED_INTERMEDIATE_DIR)/gen/empty.cc"],
       [str "d#host", str "./empty.gyp:gen_empty_cc#host"]) ∧
    v2SourcesBlock (str "<(SHARED_INTERMEDIATE_DIR)") (str "host")
        (str "static_library") [str "../y.cc"] [] =
      ([str "../y.cc"], []) :=
  ⟨(claim_C6 (str "<(SHARED_INTERMEDIATE_DIR)") (str "host")
      [str "../x.h"] [str "d#host"]).1 (by decide),
   (claim_C6 (str "<(SHARED_INTERMEDIATE_DIR)") (str "host")
      [str "../y.cc"] []).2.1 (by decide)⟩

/-- Claim C5: during closure traversal, a dependency with no toolchain
qualification is turned into a work item carrying the toolchain of the key
currently being processed (toolchain inheritance, not the build default),
while a qualified dependency keeps its own declared toolchain.  The work
items produced by `stepConfigs k tgt` (minus those already visited) are
exactly what the loop enqueues. -/
theorem claim_C5 (k : GnTargetCfg) (tgt : GnTarget) (cfgs : List GnTargetCfg)
    (dep : Str) (pr : ParsedGnTargetName)
    (hstep : stepConfigs k tgt = some cfgs)
    (hdep : dep ∈ tgt.deps)
    (hparse : parseGnTargetName dep = some pr) :
    (pr.toolchain = none →
      ({ name := depName pr, build := k.build, toolchain := k.toolchain } :
        GnTargetCfg) ∈ cfgs) ∧
    (∀ t, pr.toolchain = some t → t ≠ [] →
      ({ name := depName pr, build := k.build, toolchain := t } :
        GnTargetCfg) ∈ cfgs) := by
  obtain ⟨cfg, hcfg, hmem⟩ := mapOpt_mem hstep hdep
  rw [depToConfig, hparse, Option.map_some'] at hcfg
  constructor
  · intro hnone
    have : depToolchain k pr = k.toolchain := by
      rw [depToolchain, hnone]
    rw [this] at hcfg
    cases hcfg
    exact hmem
  · intro t ht hne
    have : depToolchain k pr = t := by
      rw [depToolchain, ht]
      exact if_neg hne
    rw [this] at hcfg
    cases hcfg
    exact hmem

/-- Key being processed in the claim C5 witness. -/
def exC5K : GnTargetCfg :=
  { name := str "//:r", build := str "b", toolchain := str "T" }

/-- Target fetched for the claim C5 witness: one unqualified and one
toolchain-qualified dependency. -/
def exC5Tgt : GnTarget :=
  { deps := [str "//:a", str "//x:q(//tc:z)"] }

/-- Work items produced in the claim C5 witness. -/
def exC5Cfgs : List GnTargetCfg :=
  [{ name := str "//:a", build := str "b", toolchain := str "T" },
   { name := str "//x:q", build := str "b", toolchain := str "//tc:z" }]

/-- Witness for claim C5: the unqualified dependency inherits the current
key's toolchain `T`; the qualified one keeps `//tc:z`. -/
theorem claim_C5_witness :
    ({ name := str "//:a", build := str "b", toolchain := str "T" } :
      GnTargetCfg) ∈ exC5Cfgs ∧
    ({ name := str "//x:q", build := str "b", toolchain := str "//tc:z" } :
      GnTargetCfg) ∈ exC5Cfgs :=
  ⟨(claim_C5 exC5K exC5Tgt exC5Cfgs (str "//:a")
      { path := [], target := str "a", toolchain := none }
      (by decide) (by decide) (by decide)).1 rfl,
   (claim_C5 exC5K exC5Tgt exC5Cfgs (str "//x:q(//tc:z)")
      { path := str "x", target := str "q", toolchain := some (str "//tc:z") }
      (by decide) (by decide) (by decide)).2 (str "//tc:z") rfl (by decide)⟩

theorem mergeDeps_eq_some_iff (b : Str) (f : GypTarget) (o : Option (List Str))
    (xs : List (Str × GypTarget × Option (List Str))) (d : List Str) :
    mergeDeps ((b, f, o) :: xs) = some d ↔
      (stripFragDeps b f = some d ∧
       ∀ p ∈ xs, stripFragDeps p.1 p.2.1 = some d) := by
  constructor
  · intro h
    rw [mergeDeps] at h
    cases hd0 : stripFragDeps b f with
    | none => rw [hd0] at h; exact absurd h (by simp)
    | some d0 =>
      rw [hd0] at h
      cases hds : mapOpt (fun p => stripFragDeps p.1 p.2.1) xs with
      | none => rw [hds] at h; exact absurd h (by simp)
      | some ds =>
        rw [hds] at h
        simp only [Option.bind_eq_bind, Option.some_bind] at h
        by_cases hall : ds.all (fun dd => arrayEquals dd d0)
        · rw [if_pos hall] at h
          cases h
          refine ⟨rfl, fun p hp => ?_⟩
          obtain ⟨dp, hdp, hdpm⟩ := mapOpt_mem hds hp
          have := List.all_eq_true.mp hall dp hdpm
          rw [hdp]
          rw [of_decide_eq_true this]
        · rw [if_neg hall] at h
          cases h
  · rintro ⟨hx, hxs⟩
    rw [mergeDeps, hx]
    have hmap : mapOpt (fun p => stripFragDeps p.1 p.2.1) xs =
        some (xs.map (fun _ => d)) :=
      mapOpt_eq_some_of_forall hxs
    rw [hmap]
    simp only [Option.bind_eq_bind, Option.some_bind]
    have hall : (xs.map (fun _ => d)).all (fun dd => arrayEquals dd d) := by
      rw [List.all_eq_true]
      intro dd hdd
      rcases List.mem_map.mp hdd with ⟨p, -, rfl⟩
      exact decide_eq_true rfl
    rw [if_pos hall]

theorem buildTargetOld_multi (b1 : Str) (f1 : GypTarget) (o1 : Option (List Str))
    (p2 : Str × GypTarget × Option (List Str))
    (l2 : List (Str × GypTarget × Option (List Str)))
    (st : BuilderState) (hfr : st.targetFragments = (b1, f1, o1) :: p2 :: l2) :
    buildTargetOld st =
      (mergeDeps ((b1, f1, o1) :: p2 :: l2)).bind fun deps =>
        some { target_name := st.targetName, type := st.targetType,
               toolsets := some (((b1, f1, o1) :: p2 :: l2).map (fun p => p.1)),
               target_conditions :=
                 some (((b1, f1, o1) :: p2 :: l2).map fun p =>
                   (condExpr p.1, toFieldsOld p.2.1)),
               dependencies := some deps } := by
  obtain ⟨b2, f2, o2⟩ := p2
  rw [buildTargetOld, hfr]
  rfl

/-- Claim C3: with two or more accumulated fragments, finalizing errors if
and only if the per-toolset dependency lists do not all strip (each
dependency losing its own fragment's `#<toolset>` suffix) to one shared
list; and when they do, the merged target carries that single shared list
as its top-level `dependencies`. -/
theorem claim_C3 (st : BuilderState) (h2 : 2 ≤ st.targetFragments.length) :
    (buildTargetOld st = none ↔
      ¬ ∃ d, ∀ p ∈ st.targetFragments, stripFragDeps p.1 p.2.1 = some d) ∧
    (∀ tgt d, buildTargetOld st = some tgt →
      (∀ p ∈ st.targetFragments, stripFragDeps p.1 p.2.1 = some d) →
      tgt.dependencies = some d) := by
  cases hfr : st.targetFragments with
  | nil => rw [hfr] at h2; exact absurd h2 (by simp)
  | cons p1 l1 =>
    cases l1 with
    | nil => rw [hfr] at h2; exact absurd h2 (by simp)
    | cons p2 l2 =>
      obtain ⟨b1, f1, o1⟩ := p1
      have hred := buildTargetOld_multi b1 f1 o1 p2 l2 st hfr
      constructor
      · rw [hred]
        constructor
        · intro hnone hex
          obtain ⟨d, hall⟩ := hex
          have hsome : mergeDeps ((b1, f1, o1) :: p2 :: l2) = some d := by
            rw [mergeDeps_eq_some_iff]
            exact ⟨hall _ (List.mem_cons_self _ _),
                   fun p hp => hall p (List.mem_cons_of_mem _ hp)⟩
          rw [hsome] at hnone
          exact absurd hnone (by simp)
        · intro hnex
          cases hm : mergeDeps ((b1, f1, o1) :: p2 :: l2) with
          | none => rfl
          | some d =>
            obtain ⟨hx, hxs⟩ := (mergeDeps_eq_some_iff _ _ _ _ _).mp hm
            refine absurd ⟨d, fun p hp => ?_⟩ hnex
            rcases List.mem_cons.mp hp with rfl | hp2
            · exact hx
            · exact hxs p hp2
      · intro tgt d htgt hall
        rw [hred] at htgt
        cases hm : mergeDeps ((b1, f1, o1) :: p2 :: l2) with
        | none => rw [hm] at htgt; exact absurd htgt (by simp)
        | some d0 =>
          rw [hm] at htgt
          simp only [Option.bind_eq_bind, Option.some_bind] at htgt
          have hsome : mergeDeps ((b1, f1, o1) :: p2 :: l2) = some d := by
            rw [mergeDeps_eq_some_iff]
            exact ⟨hall _ (List.mem_cons_self _ _),
                   fun p hp => hall p (List.mem_cons_of_mem _ hp)⟩
          rw [hm] at hsome
          cases hsome
          cases htgt
          rfl

/-- Fragment for toolset `host` in the claim C3 witness. -/
def exC3FH : GypTarget :=
  { target_name := str "t", type := str "static_library",
    toolsets := some [str "host"], dependencies := some [str "x#host"] }

/-- Fragment for toolset `target` in the claim C3 witness. -/
def exC3FT : GypTarget :=
  { target_name := str "t", type := str "static_library",
    toolsets := some [str "target"], dependencies := some [str "x#target"] }

/-- Two-toolset builder state of the claim C3 witness, with matching
dependency lists after suffix stripping. -/
def exC3St : BuilderState :=
  { targetFragments := [(str "host", exC3FH, none), (str "target", exC3FT, none)],
    targetName := str "t", targetType := str "static_library" }

/-- Merged target of the claim C3 witness. -/
def exC3Tgt : GypTarget :=
  { target_name := str "t", type := str "static_library",
    toolsets := some [str "host", str "target"],
    target_conditions := some [(condExpr (str "host"), toFieldsOld exC3FH),
                               (condExpr (str "target"), toFieldsOld exC3FT)],
    dependencies := some [str "x"] }

/-- Witness for claim C3: on a concrete two-toolset merger with matching
stripped dependency lists, the merged target carries the shared top-level
list. -/
theorem claim_C3_witness :
    2 ≤ exC3St.targetFragments.length ∧ exC3Tgt.dependencies = some [str "x"] :=
  ⟨by decide,
   (claim_C3 exC3St (by decide)).2 exC3Tgt [str "x"] (by decide) (by decide)⟩

/-- Facade target shape described by claim C4: named after the logical
target, type `none`, depending on `<name>_proxy`, carrying one copy action
per toolset whose input is the proxy's default product and whose output is
that toolset's single declared output (directly for one toolset, inside
`target_conditions` branches otherwise). -/
def proxyFacade (actionName name : Str) (builds : List Str) (os : List Str) : GypTarget :=
  let base : GypTarget :=
    { target_name := name, type := str "none",
      dependencies := some [name ++ str "_proxy"],
      toolsets := some builds }
  match builds, os with
  | [_], [o] => { base with actions := some [copyAction actionName name o] }
  | _, _ =>
    let tcs := (builds.zip os).map fun p =>
      (condExpr p.1,
       ({ actions := some [copyAction actionName name p.2] } : GypFields))
    { base with target_conditions := some tcs }

theorem buildProxyCore_eq (actionName : Str) (st : BuilderState) (os : List Str)
    (hty : st.targetType = str "executable")
    (hos : mapOpt singleOut st.targetFragments = some os) :
    buildProxyCore actionName st =
      some (proxyFacade actionName st.targetName
        (st.targetFragments.map (fun p => p.1)) os) := by
  rw [buildProxyCore, if_pos hty]
  rw [mapOpt_map_comp singleOut
    (fun o => ({ actions := some [copyAction actionName st.targetName o] } : GypFields))
    st.targetFragments]
  rw [hos, Option.map_some', Option.map_some']
  dsimp only
  rw [zip_map_right_eq, List.map_map]
  have hlen : os.length = st.targetFragments.length := mapOpt_length hos
  cases os with
  | nil =>
    cases hfr : st.targetFragments with
    | nil => rfl
    | cons q qs => rw [hfr] at hlen; exact absurd hlen (by simp)
  | cons o1 os1 =>
    cases os1 with
    | nil =>
      rw [List.length_cons, List.length_nil] at hlen
      cases hfr : st.targetFragments with
      | nil => rw [hfr] at hlen; exact absurd hlen (by simp)
      | cons q qs =>
        cases qs with
        | nil => rfl
        | cons q2 qs2 => rw [hfr] at hlen; exact absurd hlen (by simp)
    | cons o2 os2 =>
      cases hfr : st.targetFragments with
      | nil => rw [hfr] at hlen; exact absurd hlen (by simp)
      | cons q qs =>
        cases qs with
        | nil => rw [hfr] at hlen; exact absurd hlen (by simp)
        | cons q2 qs2 => rfl

/-- Claim C4: for an executable merger whose merge step succeeded,
`buildWithProxy` throws exactly when some stored fragment does not declare
exactly one output, and otherwise returns exactly two targets: the merged
target renamed `<name>_proxy`, followed by the copy facade of
`proxyFacade` with the `move_as_expected_output` action per toolset. -/
theorem claim_C4 (st : BuilderState) (m : GypTarget)
    (hn : st.targetName ≠ [])
    (hty : st.targetType = str "executable")
    (hm : buildTargetOld st = some m) :
    (mapOpt singleOut st.targetFragments = none → buildWithProxyOld st = none) ∧
    (∀ os, mapOpt singleOut st.targetFragments = some os →
      buildWithProxyOld st =
        some [{ m with target_name := st.targetName ++ str "_proxy" },
              proxyFacade (str "move_as_expected_output") st.targetName
                (st.targetFragments.map (fun p => p.1)) os]) := by
  have h1 : ¬ (st.targetName = [] ∨ st.targetType = []) := by
    rintro (h | h)
    · exact hn h
    · rw [hty] at h
      exact absurd h (by decide)
  constructor
  · intro hnone
    rw [buildWithProxyOld, if_neg h1, hm]
    simp only [Option.bind_eq_bind, Option.some_bind]
    rw [if_pos hty]
    rw [buildProxyCore, if_pos hty]
    rw [mapOpt_map_comp singleOut
      (fun o => ({ actions := some [copyAction (str "move_as_expected_output")
        st.targetName o] } : GypFields)) st.targetFragments]
    rw [hnone]
    rfl
  · intro os hos
    rw [buildWithProxyOld, if_neg h1, hm]
    simp only [Option.bind_eq_bind, Option.some_bind]
    rw [if_pos hty]
    rw [buildProxyCore_eq (str "move_as_expected_output") st os hty hos]
    rfl

/-- Fragment of the claim C4 witness (toolset `host`, single output). -/
def exC4F : GypTarget :=
  { target_name := str "app", type := str "executable",
    toolsets := some [str "host"], sources := some [str "../m.cc"] }

/-- Builder state of the claim C4 witness. -/
def exC4St : BuilderState :=
  { targetFragments := [(str "host", exC4F, some [str "../bin/app"])],
    targetName := str "app", targetType := str "executable" }

/-- Witness for claim C4: the concrete executable merger expands into the
renamed real target and the copy facade. -/
theorem claim_C4_witness :
    buildWithProxyOld exC4St =
      some [{ exC4F with target_name := str "app_proxy" },
            proxyFacade (str "move_as_expected_output") (str "app")
              [str "host"] [str "../bin/app"]] :=
  (claim_C4 exC4St exC4F (by decide) (by decide) (by decide)).2
    [str "../bin/app"] (by decide)

/-- Diamond-shaped build of the claim C1 counterexample:
`//:r` depends on `//:a` and `//:b2`, which both depend on `//:c`. -/
def exC1Build : GnBuild :=
  { targets :=
      [(str "//:r", { deps := [str "//:a", str "//:b2"] }),
       (str "//:a", { deps := [str "//:c"] }),
       (str "//:b2", { deps := [str "//:c"] }),
       (str "//:c", { deps := [] })],
    defaultToolchain := str "T" }

/-- One-build project of the claim C1 counterexample. -/
def exC1Proj : GnProject := { builds := [(str "b", exC1Build)] }

/-- Shared dependency key of the claim C1 counterexample. -/
def exC1C : GnTargetCfg :=
  { name := str "//:c", build := str "b", toolchain := str "T" }

/-- Counterexample to claim C1: in the diamond project the key for `//:c`
is dequeued, fetched and expanded TWICE.  The loop adds a key to the
visited set only when it is dequeued and never checks the set at dequeue
time, so `//:c`, enqueued by both `//:a` and `//:b2` before its first
processing, passes the enqueue-time filter twice. -/
theorem claim_C1_cex :
    (getAllGnTargetDepsTraced exC1Proj (str "//:r") 10).map
      (fun p => p.2.count exC1C) = some 2 := by decide

/-- Claim C1 (amended): the visited set does deduplicate the RESULT: for
any project, fuel and starting state with a duplicate-free visited set,
a successful run of the traversal loop returns a duplicate-free visited
list, each (name, build, toolchain) key appearing at most once.  A key can
still be dequeued and fetched more than once (see the counterexample);
only re-enqueueing after processing is prevented. -/
theorem claim_C1 (proj : GnProject) (fuel : Nat)
    (seen trace queue : List GnTargetCfg)
    (out : List GnTargetCfg × List GnTargetCfg)
    (hseen : seen.Nodup)
    (h : closureAux proj fuel seen trace queue = some out) :
    out.1.Nodup := by
  induction fuel generalizing seen trace queue out with
  | zero => cases h
  | succ n ih =>
    rw [closureAux.eq_def] at h
    cases queue with
    | nil =>
      cases h
      exact hseen
    | cons k rest =>
      dsimp only at h
      cases htgt : getTargetOf proj k with
      | none => rw [htgt] at h; exact absurd h (by simp)
      | some tgt =>
        rw [htgt] at h
        simp only [Option.bind_eq_bind, Option.some_bind] at h
        cases hcfgs : stepConfigs k tgt with
        | none => rw [hcfgs] at h; exact absurd h (by simp)
        | some cfgs =>
          rw [hcfgs] at h
          simp only [Option.bind_eq_bind, Option.some_bind] at h
          exact ih _ _ _ _ (insSet_nodup hseen) h

/-- Root key of the claim C1 witness. -/
def exC1R : GnTargetCfg :=
  { name := str "//:r", build := str "b", toolchain := str "T" }

/-- Intermediate key `//:a` of the claim C1 witness. -/
def exC1A : GnTargetCfg :=
  { name := str "//:a", build := str "b", toolchain := str "T" }

/-- Intermediate key `//:b2` of the claim C1 witness. -/
def exC1B2 : GnTargetCfg :=
  { name := str "//:b2", build := str "b", toolchain := str "T" }

/-- Visited list returned on the diamond project. -/
def exC1Seen : List GnTargetCfg := [exC1R, exC1A, exC1B2, exC1C]

/-- Processing trace on the diamond project: `//:c` appears twice. -/
def exC1Trace : List GnTargetCfg := [exC1R, exC1A, exC1B2, exC1C, exC1C]

/-- Witness for claim C1: the concrete diamond run returns a
duplicate-free visited list even though the trace repeats `//:c`. -/
theorem claim_C1_witness :
    closureAux exC1Proj 10 [] [] [exC1R] = some (exC1Seen, exC1Trace) ∧
    exC1Seen.Nodup :=
  ⟨by decide,
   claim_C1 exC1Proj 10 [] [] [exC1R] (exC1Seen, exC1Trace)
     List.nodup_nil (by decide)⟩

theorem stripLead_some_eq {pre s r : Str} (h : stripLead pre s = some r) :
    s = pre ++ r := by
  induction pre generalizing s with
  | nil => rw [stripLead] at h; cases h; rfl
  | cons p ps ih =>
    cases s with
    | nil => cases h
    | cons c cs =>
      rw [stripLead] at h
      by_cases hp : p = c
      · rw [if_pos hp] at h
        rw [List.cons_append, hp, ih h]
      · rw [if_neg hp] at h
        cases h

theorem takeWhile_append_all {α : Type} (p : α → Bool) (l1 l2 : List α)
    (h : ∀ a ∈ l1, p a = true) :
    (l1 ++ l2).takeWhile p = l1 ++ l2.takeWhile p := by
  induction l1 with
  | nil => simp
  | cons x xs ih =>
    rw [List.cons_append, List.takeWhile_cons, h x (List.mem_cons_self _ _),
      List.cons_append, ih (fun a ha => h a (List.mem_cons_of_mem _ ha))]
    rfl

theorem dropWhile_append_all {α : Type} (p : α → Bool) (l1 l2 : List α)
    (h : ∀ a ∈ l1, p a = true) :
    (l1 ++ l2).dropWhile p = l2.dropWhile p := by
  induction l1 with
  | nil => simp
  | cons x xs ih =>
    rw [List.cons_append, List.dropWhile_cons, h x (List.mem_cons_self _ _)]
    exact ih (fun a ha => h a (List.mem_cons_of_mem _ ha))

theorem takeWhile_append_stop {α : Type} (p : α → Bool) (l1 l2 : List α)
    (h : ∃ a ∈ l1, p a = false) :
    (l1 ++ l2).takeWhile p = l1.takeWhile p := by
  induction l1 with
  | nil =>
    obtain ⟨a, ha, -⟩ := h
    cases ha
  | cons x xs ih =>
    rw [List.cons_append, List.takeWhile_cons, List.takeWhile_cons]
    cases hx : p x with
    | false => rfl
    | true =>
      obtain ⟨a, ha, hpa⟩ := h
      rcases List.mem_cons.mp ha with rfl | ha2
      · rw [hx] at hpa; cases hpa
      · rw [ih ⟨a, ha2, hpa⟩]

theorem lastSplit_eq_none_iff (c : Char) (l : Str) :
    lastSplit c l = none ↔ c ∉ l := by
  induction l with
  | nil => simp [lastSplit]
  | cons x xs ih =>
    rw [lastSplit]
    cases hxs : lastSplit c xs with
    | some ab =>
      obtain ⟨a, b⟩ := ab
      have hcxs : c ∈ xs := by
        by_contra hc
        rw [ih.mpr hc] at hxs
        cases hxs
      constructor
      · intro h; cases h
      · intro h
        exact absurd (List.mem_cons_of_mem x hcxs) h
    | none =>
      have hc : c ∉ xs := ih.mp hxs
      by_cases hx : x = c
      · subst hx
        rw [if_pos rfl]
        constructor
        · intro h; cases h
        · intro h
          exact absurd (List.mem_cons_self _ _) h
      · rw [if_neg hx]
        constructor
        · intro _ hmem
          rcases List.mem_cons.mp hmem with heq | hmem2
          · exact hx heq.symm
          · exact hc hmem2
        · intro _
          rfl

theorem lastSplit_append_last (c : Char) (l1 l2 : Str) (h : c ∉ l2) :
    lastSplit c (l1 ++ c :: l2) = some (l1, l2) := by
  induction l1 with
  | nil =>
    rw [List.nil_append, lastSplit, (lastSplit_eq_none_iff c l2).mpr h, if_pos rfl]
  | cons x xs ih =>
    rw [List.cons_append, lastSplit, ih]

theorem getLast?_append_single {α : Type} (l : List α) (a : α) :
    (l ++ [a]).getLast? = some a := by
  induction l with
  | nil => rfl
  | cons x xs ih =>
    rw [List.cons_append, List.getLast?_cons, ih]
    cases xs <;> simp_all

/-- Target name of the claim C8 counterexample: its toolchain component
`c` contains no colon, so the greedy `([^:]*)` group of the parse regex
absorbs the whole `b(c)` as the short name. -/
def exC8X : TargetName :=
  { path := str "a", shortName := str "b", toolchain := some (str "c") }

/-- Counterexample to claim C8: parse after format is NOT the identity on
the well-formed name `//a:b(c)`; the parser returns short name `b(c)` with
no toolchain instead of short name `b` with toolchain `c`. -/
theorem claim_C8_cex :
    formatTargetName exC8X = str "//a:b(c)" ∧
    parseGnTargetName (formatTargetName exC8X) =
      some { path := str "a", target := str "b(c)", toolchain := none } ∧
    parseGnTargetName (formatTargetName exC8X) ≠
      some { path := exC8X.path, target := exC8X.shortName,
             toolchain := exC8X.toolchain } := by decide

/-- Claim C8 (amended): parse after format is the identity for every
target name whose path and short name are colon-free and whose toolchain,
when present, contains a `:`, has no `(` before the first `:`, and
contains no line terminator (all true of real GN toolchain names, which
are themselves single-line `//path:name` strings); for a colon-free
toolchain the formatted string parses with the toolchain absorbed into the
short name instead, and a toolchain containing a line terminator makes the
parse throw, since the dotall-less `(.*)` group cannot match it.  Parsing
always fails for strings missing the leading `//` or containing no `:`
separator. -/
theorem claim_C8 (x : TargetName)
    (hp : ':' ∉ x.path)
    (hs : ':' ∉ x.shortName)
    (ht : ∀ t, x.toolchain = some t →
      ':' ∈ t ∧ '(' ∉ t.takeWhile (fun c => c != ':') ∧
      t.any isLineTerminator = false) :
    parseGnTargetName (formatTargetName x) =
      some { path := x.path, target := x.shortName, toolchain := x.toolchain } ∧
    (∀ s : Str, stripLead (str "//") s = none → parseGnTargetName s = none) ∧
    (∀ s : Str, ':' ∉ s → parseGnTargetName s = none) := by
  have hbne : ∀ (l : Str), ':' ∉ l → ∀ a ∈ l, (a != ':') = true := by
    intro l hl a ha
    rw [bne_iff_ne]
    rintro rfl
    exact hl ha
  have hanyN : ∀ (l : Str), ':' ∉ l → l.any (fun c => c == ':') = false := by
    intro l hl
    rw [← Bool.not_eq_true, List.any_eq_true]
    rintro ⟨a, ha, hab⟩
    rw [beq_iff_eq] at hab
    subst hab
    exact hl ha
  refine ⟨?_, ?_, ?_⟩
  · rw [formatTargetName, parseGnTargetName, stripLead_append,
      Option.some_bind, parseAfterSlash]
    have hany : (x.path ++ ':' :: (x.shortName ++
        match x.toolchain with
        | some t => '(' :: (t ++ [')'])
        | none => [])).any (fun c => c == ':') = true := by
      rw [List.any_eq_true]
      exact ⟨':', List.mem_append_right _ (List.mem_cons_self _ _), by simp⟩
    rw [if_pos hany]
    dsimp only
    have htw : List.takeWhile (fun c => c != ':') (':' :: (x.shortName ++
        match x.toolchain with
        | some t => '(' :: (t ++ [')'])
        | none => [])) = [] := by
      rw [List.takeWhile_cons]
      simp
    have hdw : List.dropWhile (fun c => c != ':') (':' :: (x.shortName ++
        match x.toolchain with
        | some t => '(' :: (t ++ [')'])
        | none => [])) = ':' :: (x.shortName ++
        match x.toolchain with
        | some t => '(' :: (t ++ [')'])
        | none => []) := by
      rw [List.dropWhile_cons]
      simp
    rw [takeWhile_append_all _ _ _ (hbne _ hp),
        dropWhile_append_all _ _ _ (hbne _ hp), htw, hdw,
        List.append_nil, List.tail_cons]
    cases hxt : x.toolchain with
    | none =>
      rw [List.append_nil]
      have hno : ¬ ((x.shortName.any (fun c => c == ':')) = true) := by
        rw [hanyN _ hs]
        simp
      rw [if_neg hno]
    | some t =>
      obtain ⟨htc, htp, hterm⟩ := ht t hxt
      have hany2 : ((x.shortName ++ '(' :: (t ++ [')'])).any
          (fun c => c == ':')) = true := by
        rw [List.any_eq_true]
        refine ⟨':', ?_, by simp⟩
        exact List.mem_append_right _ (List.mem_cons_of_mem _
          (List.mem_append_left _ htc))
      rw [if_pos hany2]
      have htw2 : List.takeWhile (fun c => c != ':')
          (x.shortName ++ '(' :: (t ++ [')'])) =
          x.shortName ++ '(' :: List.takeWhile (fun c => c != ':') t := by
        rw [takeWhile_append_all _ _ _ (hbne _ hs), List.takeWhile_cons]
        have hpb : ((('(' : Char)) != ':') = true := by decide
        rw [hpb, takeWhile_append_stop _ t [')'] ⟨':', htc, by simp⟩]
        rfl
      rw [htw2,
        lastSplit_append_last '(' x.shortName (t.takeWhile (fun c => c != ':')) htp]
      dsimp only
      have htail : x.shortName ++ '(' :: (t ++ [')']) =
          (x.shortName ++ '(' :: t) ++ [')'] := by simp
      rw [htail, getLast?_append_single, if_pos rfl]
      have hdrop : ((x.shortName ++ '(' :: t) ++ [')']).drop
          (x.shortName.length + 1) = t ++ [')'] := by
        have h2 : (x.shortName ++ '(' :: t) ++ [')'] =
            (x.shortName ++ ['(']) ++ (t ++ [')']) := by simp
        have hlen : (x.shortName ++ ['(']).length = x.shortName.length + 1 := by
          simp
        rw [h2, ← hlen, List.drop_left]
      rw [hdrop, List.dropLast_concat]
      have hno2 : ¬ ((t.any isLineTerminator) = true) := by
        rw [hterm]
        simp
      rw [if_neg hno2]
  · intro s hs2
    rw [parseGnTargetName, hs2]
    rfl
  · intro s hs2
    rw [parseGnTargetName]
    cases hsl : stripLead (str "//") s with
    | none => rfl
    | some rest =>
      have hnr : ':' ∉ rest := by
        intro hmem
        exact hs2 (by rw [stripLead_some_eq hsl]; exact List.mem_append_right _ hmem)
      have hno : ¬ ((rest.any (fun c => c == ':')) = true) := by
        rw [hanyN _ hnr]
        simp
      rw [Option.some_bind, parseAfterSlash, if_neg hno]

/-- Witness for claim C8: identity holds at the realistic qualified name
`//base:base(//gn/standalone/toolchain:gcc_like_host)`, and parsing fails
on a string without `//` and on one without `:`. -/
theorem claim_C8_witness :
    parseGnTargetName (formatTargetName
      { path := str "base", shortName := str "base",
        toolchain := some (str "//gn/standalone/toolchain:gcc_like_host") }) =
      some { path := str "base", target := str "base",
             toolchain := some (str "//gn/standalone/toolchain:gcc_like_host") } ∧
    parseGnTargetName (str "base:base") = none ∧
    parseGnTargetName (str "//base") = none := by
  have hx := claim_C8
    { path := str "base", shortName := str "base",
      toolchain := some (str "//gn/standalone/toolchain:gcc_like_host") }
    (by decide) (by decide)
    (by rintro t ht2; cases ht2; exact (by decide))
  exact ⟨hx.1, hx.2.1 _ (by decide), hx.2.2 _ (by decide)⟩

end GnToGyp
